import Mathlib

/-!
Verification of the `colorful` color library (RGB/HSV conversion and hex codecs).

The development shallowly embeds the Rust sources:
  * `src/number_utils.rs`   — numeric primitives (`approx_equal_f64`, `to_u8_repr`, …)
  * `src/models/hsv.rs`     — the `HSV` value type and its constructor `from_hsv`
  * `src/converter.rs`      — RGB↔HSV conversion and 24↔48-bit depth rescaling
  * `src/color_models/rgb/rgb24.rs` — the 8-bit RGB type with its hex codec

Modelling conventions:
  * `f64` values are embedded by the inductive type `F`: a finite value carries an
    exact rational payload, and NaN, +∞, −∞ are separate constructors.  Arithmetic
    on finite values is exact rational arithmetic (the real-number semantics of the
    float operations); every concrete value appearing in the theorems below is far
    from any rounding boundary, so the exact semantics agrees with IEEE evaluation
    there.  There is a single zero (no negative zero).
  * Machine integers (`u8`, `u16`, `u32`) are embedded as `Nat`, with `% 2^w`
    inserted exactly where a Rust `as` cast truncates.
  * Rust panics (`assert!`, `expect`, `panic!`) are embedded as `Option.none`.
  * Rust string slices are embedded as `List Char` (matching `str::chars`).
-/

namespace Colorful

/-- Truncation of a rational toward zero, the semantics of a Rust `as`-cast of a
float to an integer (before saturation) and of the quotient used by the float `%`
operator. -/
def qtrunc (q : ℚ) : ℤ :=
  if 0 ≤ q then ⌊q⌋ else ⌈q⌉

/-- Rounding of a rational to the nearest integer, ties away from zero: the
semantics of Rust `f64::round`. -/
def qround (q : ℚ) : ℤ :=
  if 0 ≤ q then ⌊q + 1/2⌋ else ⌈q - 1/2⌉

/-- Embedding of Rust `f64`: an exact rational for finite values, plus the three
special values NaN, +∞ and −∞. -/
inductive F : Type where
  | fin : ℚ → F
  | nan : F
  | inf : F
  | ninf : F
deriving DecidableEq

/-- Embeds `f64::is_nan`. -/
def F.isNan : F → Bool
  | F.nan => true
  | _ => false

/-- Embeds `f64::is_finite`. -/
def F.isFinite : F → Bool
  | F.fin _ => true
  | _ => false

/-- Embeds `f64::is_infinite`. -/
def F.isInfinite : F → Bool
  | F.inf => true
  | F.ninf => true
  | _ => false

/-- Embeds `f64::is_sign_positive` (the model has a single zero, counted
positive; the library only queries the sign of infinite values). -/
def F.isSignPositive : F → Bool
  | F.fin q => decide (0 ≤ q)
  | F.nan => true
  | F.inf => true
  | F.ninf => false

/-- Embeds `f64::is_sign_negative`. -/
def F.isSignNegative : F → Bool
  | F.fin q => decide (q < 0)
  | F.nan => false
  | F.inf => false
  | F.ninf => true

/-- Embeds `f64` addition (exact on finite values). -/
def F.add : F → F → F
  | F.nan, _ => F.nan
  | _, F.nan => F.nan
  | F.inf, F.ninf => F.nan
  | F.ninf, F.inf => F.nan
  | F.inf, _ => F.inf
  | _, F.inf => F.inf
  | F.ninf, _ => F.ninf
  | _, F.ninf => F.ninf
  | F.fin p, F.fin q => F.fin (p + q)

/-- Embeds `f64` subtraction (exact on finite values). -/
def F.sub : F → F → F
  | F.nan, _ => F.nan
  | _, F.nan => F.nan
  | F.inf, F.inf => F.nan
  | F.ninf, F.ninf => F.nan
  | F.inf, _ => F.inf
  | F.ninf, _ => F.ninf
  | _, F.inf => F.ninf
  | _, F.ninf => F.inf
  | F.fin p, F.fin q => F.fin (p - q)

/-- Embeds `f64` multiplication (exact on finite values). -/
def F.mul : F → F → F
  | F.nan, _ => F.nan
  | _, F.nan => F.nan
  | F.inf, F.fin q => if q = 0 then F.nan else if 0 < q then F.inf else F.ninf
  | F.fin p, F.inf => if p = 0 then F.nan else if 0 < p then F.inf else F.ninf
  | F.ninf, F.fin q => if q = 0 then F.nan else if 0 < q then F.ninf else F.inf
  | F.fin p, F.ninf => if p = 0 then F.nan else if 0 < p then F.ninf else F.inf
  | F.inf, F.inf => F.inf
  | F.inf, F.ninf => F.ninf
  | F.ninf, F.inf => F.ninf
  | F.ninf, F.ninf => F.inf
  | F.fin p, F.fin q => F.fin (p * q)

/-- Embeds `f64` division (exact on finite values; division by the single zero of
the model follows the positive-zero IEEE rule). -/
def F.div : F → F → F
  | F.nan, _ => F.nan
  | _, F.nan => F.nan
  | F.inf, F.inf => F.nan
  | F.inf, F.ninf => F.nan
  | F.ninf, F.inf => F.nan
  | F.ninf, F.ninf => F.nan
  | F.inf, F.fin q => if 0 ≤ q then F.inf else F.ninf
  | F.ninf, F.fin q => if 0 ≤ q then F.ninf else F.inf
  | F.fin _, F.inf => F.fin 0
  | F.fin _, F.ninf => F.fin 0
  | F.fin p, F.fin q =>
      if q = 0 then (if p = 0 then F.nan else if 0 < p then F.inf else F.ninf)
      else F.fin (p / q)

/-- Embeds `f64::abs`. -/
def F.fabs : F → F
  | F.fin q => F.fin |q|
  | F.nan => F.nan
  | F.inf => F.inf
  | F.ninf => F.inf

/-- Embeds `f64::round` (ties away from zero). -/
def F.round : F → F
  | F.fin q => F.fin (qround q)
  | F.nan => F.nan
  | F.inf => F.inf
  | F.ninf => F.ninf

/-- Embeds the `f64` comparison `<` (false whenever NaN is involved). -/
def F.flt : F → F → Bool
  | F.nan, _ => false
  | _, F.nan => false
  | F.fin p, F.fin q => decide (p < q)
  | F.inf, _ => false
  | _, F.inf => true
  | F.ninf, F.ninf => false
  | F.ninf, _ => true
  | _, F.ninf => false

/-- Embeds the `f64` comparison `<=` (false whenever NaN is involved). -/
def F.fle : F → F → Bool
  | F.nan, _ => false
  | _, F.nan => false
  | F.fin p, F.fin q => decide (p ≤ q)
  | F.ninf, _ => true
  | _, F.ninf => false
  | _, F.inf => true
  | F.inf, _ => false

/-- Embeds the `f64` comparison `>=`. -/
def F.fge (a b : F) : Bool := F.fle b a

/-- Embeds the `f64` comparison `==` (NaN is equal to nothing). -/
def F.feq : F → F → Bool
  | F.fin p, F.fin q => decide (p = q)
  | F.inf, F.inf => true
  | F.ninf, F.ninf => true
  | _, _ => false

/-- Embeds `f64::max` (IEEE semantics: a NaN operand is ignored). -/
def F.fmax : F → F → F
  | F.nan, b => b
  | a, F.nan => a
  | F.inf, _ => F.inf
  | _, F.inf => F.inf
  | F.ninf, b => b
  | a, F.ninf => a
  | F.fin p, F.fin q => F.fin (max p q)

/-- Embeds `f64::min` (IEEE semantics: a NaN operand is ignored). -/
def F.fmin : F → F → F
  | F.nan, b => b
  | a, F.nan => a
  | F.ninf, _ => F.ninf
  | _, F.ninf => F.ninf
  | F.inf, b => b
  | a, F.inf => a
  | F.fin p, F.fin q => F.fin (min p q)

/-- Embeds the Rust float remainder `%` (truncated division, sign of the
dividend; exact for finite operands). -/
def F.frem : F → F → F
  | F.fin p, F.fin q =>
      if q = 0 then F.nan else F.fin (p - q * qtrunc (p / q))
  | F.fin p, F.inf => F.fin p
  | F.fin p, F.ninf => F.fin p
  | _, _ => F.nan

/-- Embeds `f64::rem_euclid`, following its Rust implementation:
`r = self % rhs; if r < 0 { r + rhs.abs() } else { r }`. -/
def F.remEuclid (a b : F) : F :=
  let r := F.frem a b
  if F.flt r (F.fin 0) then F.add r (F.fabs b) else r

/-- Embeds the saturating Rust cast `as u8` on an `f64` (truncate toward zero,
clamp into `[0, 255]`, NaN to 0). -/
def castU8 : F → Nat
  | F.nan => 0
  | F.inf => 255
  | F.ninf => 0
  | F.fin q => if q ≤ 0 then 0 else if (255:ℚ) ≤ q then 255 else (qtrunc q).toNat

/-- Embeds the saturating Rust cast `as u16` on an `f64`. -/
def castU16 : F → Nat
  | F.nan => 0
  | F.inf => 65535
  | F.ninf => 0
  | F.fin q => if q ≤ 0 then 0 else if (65535:ℚ) ≤ q then 65535 else (qtrunc q).toNat

/-- Embeds the saturating Rust cast `as u32` on an `f64`. -/
def castU32 : F → Nat
  | F.nan => 0
  | F.inf => 4294967295
  | F.ninf => 0
  | F.fin q => if q ≤ 0 then 0 else if (4294967295:ℚ) ≤ q then 4294967295 else (qtrunc q).toNat

/-- Embeds `number_utils::get_max` (`a.max(b.max(c))`). -/
def get_max (a b c : F) : F := F.fmax a (F.fmax b c)

/-- Embeds `number_utils::get_min` (`a.min(b.min(c))`). -/
def get_min (a b c : F) : F := F.fmin a (F.fmin b c)

/-- Embeds `number_utils::to_u8_repr`. -/
def to_u8_repr (float : F) : Nat :=
  if F.fge float (F.fin 1) then 255
  else if F.fle float (F.fin 0) then 0
  else castU8 (F.round (F.mul float (F.fin 255)))

/-- Embeds `number_utils::to_u16_repr`. -/
def to_u16_repr (float : F) : Nat :=
  if F.fge float (F.fin 1) then 65535
  else if F.fle float (F.fin 0) then 0
  else castU16 (F.round (F.mul float (F.fin 65535)))

/-- Embeds `number_utils::approx_equal_f64`. -/
def approx_equal_f64 (a b epsilon : F) : Bool :=
  if (a.isFinite && !b.isFinite) || (!a.isFinite && b.isFinite) then
    false
  else if !a.isFinite && !b.isFinite then
    (a.isNan && b.isNan)
      || (a.isInfinite && b.isInfinite
          && ((a.isSignPositive && b.isSignPositive)
              || (a.isSignNegative && b.isSignNegative)))
  else
    F.flt (F.fabs (F.sub a b)) epsilon

/-- Embeds `number_utils::convert_to_range`. -/
def convert_to_range (a min max : F) : F :=
  if F.fle a min then min
  else if F.fge a max then max
  else a

/-- Embeds the struct `HSV` of `models/hsv.rs`: three `f64` channels. -/
structure HSV : Type where
  h : F
  s : F
  v : F
deriving DecidableEq

/-- Embeds the associated constant `HSV::EPSILON = 0.000_000_1` (exact decimal
value of the source literal). -/
def HSV.EPSILON : ℚ := 1 / 10000000

/-- Embeds `HSV::from_hsv` of `models/hsv.rs`.  The two `assert!`s (no NaN
anywhere, `h` finite) become `none`; otherwise `h` is wrapped with `rem_euclid`
and `s`, `v` are clamped with `convert_to_range`. -/
def HSV.from_hsv (h s v : F) : Option HSV :=
  if h.isNan || s.isNan || v.isNan then none
  else if !h.isFinite then none
  else some ⟨F.remEuclid h (F.fin 360),
    convert_to_range s (F.fin 0) (F.fin 1),
    convert_to_range v (F.fin 0) (F.fin 1)⟩

/-- Embeds the `PartialEq` impl for `HSV`: per-channel `approx_equal_f64`
with `HSV::EPSILON`. -/
def HSV.beq (a b : HSV) : Bool :=
  approx_equal_f64 a.h b.h (F.fin HSV.EPSILON)
    && approx_equal_f64 a.s b.s (F.fin HSV.EPSILON)
    && approx_equal_f64 a.v b.v (F.fin HSV.EPSILON)

/-- Embeds the struct `RGB24` of `color_models/rgb/rgb24.rs` (three `u8`
channels; the file `models/rgb/rgb24.rs` declared in `models/rgb.rs` is absent
from the sources and is structurally identical by the spec, so this one
structure serves both roles).  Channel values are `Nat`s, bounded by 255 in
every reachable state. -/
structure RGB24 : Type where
  r : Nat
  g : Nat
  b : Nat
deriving DecidableEq

/-- Embeds the struct `RGB48` of `models/rgb/rgb48.rs` (three `u16` channels). -/
structure RGB48 : Type where
  r : Nat
  g : Nat
  b : Nat
deriving DecidableEq

/-- Embeds `RGB24::from_rgb`. -/
def RGB24.from_rgb (r g b : Nat) : RGB24 := ⟨r, g, b⟩

/-- Embeds `RGB48::from_rgb`. -/
def RGB48.from_rgb (r g b : Nat) : RGB48 := ⟨r, g, b⟩

/-- Embeds `RGB24::from_rgb_f64` (each fraction through `to_u8_repr`). -/
def RGB24.from_rgb_f64 (r g b : F) : RGB24 :=
  RGB24.from_rgb (to_u8_repr r) (to_u8_repr g) (to_u8_repr b)

/-- Embeds `RGB48::from_rgb_f64` (each fraction through `to_u16_repr`). -/
def RGB48.from_rgb_f64 (r g b : F) : RGB48 :=
  RGB48.from_rgb (to_u16_repr r) (to_u16_repr g) (to_u16_repr b)

/-- Embeds `RGB48::as_tuple_f64`: each channel divided by `u16::MAX`. -/
def RGB48.as_tuple_f64 (c : RGB48) : F × F × F :=
  (F.div (F.fin c.r) (F.fin 65535),
   F.div (F.fin c.g) (F.fin 65535),
   F.div (F.fin c.b) (F.fin 65535))

/-- Embeds `converter::rgb_to_hsv` instantiated at `RGB48` (the generic body is
identical for every `RGB` impl; only `as_tuple_f64` is type-specific).  The
final `HSV::from_hsv` call can panic, hence the `Option`. -/
def rgb_to_hsv48 (c : RGB48) : Option HSV :=
  let t := c.as_tuple_f64
  let r := t.1
  let g := t.2.1
  let b := t.2.2
  let cmax := get_max r g b
  let cmin := get_min r g b
  let delta := F.sub cmax cmin
  let hue :=
    if F.feq delta (F.fin 0) then F.fin 0
    else if F.fge r b && F.fge r g then
      F.mul (F.fin 60) (F.frem (F.div (F.sub g b) delta) (F.fin 6))
    else if F.fge g r && F.fge g b then
      F.mul (F.fin 60) (F.add (F.div (F.sub b r) delta) (F.fin 2))
    else
      F.mul (F.fin 60) (F.add (F.div (F.sub r g) delta) (F.fin 4))
  let saturation := if F.flt (F.fin 0) cmax then F.div delta cmax else F.fin 0
  let value := cmax
  HSV.from_hsv hue saturation value

/-- Embeds `converter::calc_hsv` (sector table of the HSV→RGB algorithm). -/
def calc_hsv (h chroma x : F) : F × F × F :=
  if h.isNan then (F.fin 0, F.fin 0, F.fin 0)
  else if F.fle (F.fin 0) h && F.fle h (F.fin 1) then (chroma, x, F.fin 0)
  else if F.flt (F.fin 1) h && F.fle h (F.fin 2) then (x, chroma, F.fin 0)
  else if F.flt (F.fin 2) h && F.fle h (F.fin 3) then (F.fin 0, chroma, x)
  else if F.flt (F.fin 3) h && F.fle h (F.fin 4) then (F.fin 0, x, chroma)
  else if F.flt (F.fin 4) h && F.fle h (F.fin 5) then (x, F.fin 0, chroma)
  else if F.flt (F.fin 5) h && F.fle h (F.fin 6) then (chroma, F.fin 0, x)
  else (F.fin 0, F.fin 0, F.fin 0)

/-- Embeds `converter::hsv_to_rgb` instantiated at `RGB48`. -/
def hsv_to_rgb48 (hsv : HSV) : RGB48 :=
  let chroma := F.mul hsv.v hsv.s
  let h := F.div hsv.h (F.fin 60)
  let x := F.mul chroma (F.sub (F.fin 1) (F.fabs (F.sub (F.frem h (F.fin 2)) (F.fin 1))))
  let rgb := calc_hsv h chroma x
  let m := F.sub hsv.v chroma
  RGB48.from_rgb_f64 (F.add rgb.1 m) (F.add rgb.2.1 m) (F.add rgb.2.2 m)

/-- Embeds `converter::rgb24_to_rgb48`: `FACTOR = RGB48::MAX / RGB24::MAX as u16
= 65535 / 255 = 257`; each channel is multiplied by it in `u16` arithmetic. -/
def rgb24_to_rgb48 (c : RGB24) : RGB48 :=
  RGB48.from_rgb (c.r * (65535 / 255) % 65536)
    (c.g * (65535 / 255) % 65536)
    (c.b * (65535 / 255) % 65536)

/-- Embeds `converter::rgb48_to_rgb24`: `DIVIDER = 65535 / 255 = 257`; each
channel is integer-divided by it and cast to `u8` (low 8 bits). -/
def rgb48_to_rgb24 (c : RGB48) : RGB24 :=
  RGB24.from_rgb (c.r / (65535 / 255) % 256)
    (c.g / (65535 / 255) % 256)
    (c.b / (65535 / 255) % 256)

/-- Value of a hexadecimal digit accepted by `u32::from_str_radix(_, 16)`:
`0-9`, `a-f` and `A-F`. -/
def hexDigitVal (c : Char) : Option Nat :=
  if 48 ≤ c.toNat ∧ c.toNat ≤ 57 then some (c.toNat - 48)
  else if 97 ≤ c.toNat ∧ c.toNat ≤ 102 then some (c.toNat - 87)
  else if 65 ≤ c.toNat ∧ c.toNat ≤ 70 then some (c.toNat - 55)
  else none

/-- Digit-accumulation loop of `u32::from_str_radix(_, 16)`: any non-digit and
any overflow past `u32::MAX` is an error. -/
def radixAccum (acc : Nat) : List Char → Option Nat
  | [] => some acc
  | c :: cs =>
      match hexDigitVal c with
      | none => none
      | some d => if acc * 16 + d ≤ 4294967295 then radixAccum (acc * 16 + d) cs else none

/-- Embeds `u32::from_str_radix(s, 16)`: an optional leading `+` sign is
accepted (a leading `-` is a digit error for an unsigned type, as is an empty
digit string), then the hex digits are accumulated. -/
def fromStrRadix16 : List Char → Option Nat
  | [] => none
  | c :: cs =>
      if c = '+' then (if cs = [] then none else radixAccum 0 cs)
      else radixAccum 0 (c :: cs)

/-- Embeds `RGB24::from_int` (private helper of `from_hex`): splits `value`
into three digits of the given base and rescales each to the 0–255 range with
`factor = CHANNEL_MAX / (base - 1)` and `bit_move = log2 base`.  The `assert!`
on the base always holds at the two call sites (16 and 256), so the function is
embedded totally; the `as u8` casts are the `% 256`. -/
def RGB24.from_int (value base : Nat) : RGB24 :=
  let factor := 255 / (base - 1)
  let bitMove := Nat.log2 base
  let b := value % base * factor % 256
  let value1 := value >>> bitMove
  let g := value1 % base * factor % 256
  let value2 := value1 >>> bitMove
  let r := value2 % base * factor % 256
  RGB24.from_rgb r g b

/-- Embeds `RGB24::from_hex`: the string is parsed by `from_str_radix` first
(`expect` panics on a parse error), then dispatched on the character count;
panics are `none`. -/
def RGB24.from_hex (hex : List Char) : Option RGB24 :=
  match fromStrRadix16 hex with
  | none => none
  | some value =>
      if hex.length = 6 then some (RGB24.from_int value 256)
      else if hex.length = 3 then some (RGB24.from_int value 16)
      else none

/-- Lowercase hex character of a digit below 16 (the digits produced by the
`{:06x}` and `{:03x}` format strings). -/
def hexChar (d : Nat) : Char :=
  if d < 10 then Char.ofNat (48 + d) else Char.ofNat (87 + d)

/-- Embeds `RGB24::to_hex`: the packed value `(r << 16) + (g << 8) + b`
rendered by `format!("{:06x}")`.  With `u8` channels the packed value is below
`16^6`, so the output is exactly six zero-padded lowercase digits; the model
renders those six digits. -/
def RGB24.to_hex (c : RGB24) : List Char :=
  let sum := (c.r <<< 16) + (c.g <<< 8) + c.b
  [hexChar (sum / 16 ^ 5 % 16), hexChar (sum / 16 ^ 4 % 16),
   hexChar (sum / 16 ^ 3 % 16), hexChar (sum / 16 ^ 2 % 16),
   hexChar (sum / 16 % 16), hexChar (sum % 16)]

/-- Embeds `RGB24::to_hex_short`: each channel is mapped to a 0–15 level by
`(channel as f64 / 255.0 * 15.0).round() as u32`, the levels are packed as
`(r << 8) + (g << 4) + b` and rendered by `format!("{:03x}")`.  With `u8`
channels every level is at most 15, so the output is exactly three digits. -/
def RGB24.to_hex_short (c : RGB24) : List Char :=
  let r := castU32 (F.round (F.mul (F.div (F.fin c.r) (F.fin 255)) (F.fin 15)))
  let g := castU32 (F.round (F.mul (F.div (F.fin c.g) (F.fin 255)) (F.fin 15)))
  let b := castU32 (F.round (F.mul (F.div (F.fin c.b) (F.fin 255)) (F.fin 15)))
  let sum := (r <<< 8) + (g <<< 4) + b
  [hexChar (sum / 16 ^ 2 % 16), hexChar (sum / 16 % 16), hexChar (sum % 16)]

/-! Evaluation lemmas for the `F` operations on finite values. -/

@[simp] lemma F.isNan_fin (q : ℚ) : (F.fin q).isNan = false := rfl

@[simp] lemma F.isFinite_fin (q : ℚ) : (F.fin q).isFinite = true := rfl

@[simp] lemma F.add_fin (p q : ℚ) : F.add (F.fin p) (F.fin q) = F.fin (p + q) := rfl

@[simp] lemma F.sub_fin (p q : ℚ) : F.sub (F.fin p) (F.fin q) = F.fin (p - q) := rfl

@[simp] lemma F.mul_fin (p q : ℚ) : F.mul (F.fin p) (F.fin q) = F.fin (p * q) := rfl

@[simp] lemma F.fabs_fin (q : ℚ) : (F.fin q).fabs = F.fin |q| := rfl

@[simp] lemma F.round_fin (q : ℚ) : (F.fin q).round = F.fin (qround q) := rfl

@[simp] lemma F.flt_fin (p q : ℚ) : F.flt (F.fin p) (F.fin q) = decide (p < q) := rfl

@[simp] lemma F.fle_fin (p q : ℚ) : F.fle (F.fin p) (F.fin q) = decide (p ≤ q) := rfl

@[simp] lemma F.fge_fin (p q : ℚ) : F.fge (F.fin p) (F.fin q) = decide (q ≤ p) := rfl

@[simp] lemma F.feq_fin (p q : ℚ) : F.feq (F.fin p) (F.fin q) = decide (p = q) := rfl

@[simp] lemma F.fmax_fin (p q : ℚ) : F.fmax (F.fin p) (F.fin q) = F.fin (max p q) := rfl

@[simp] lemma F.fmin_fin (p q : ℚ) : F.fmin (F.fin p) (F.fin q) = F.fin (min p q) := rfl

lemma F.div_fin (p q : ℚ) (hq : q ≠ 0) :
    F.div (F.fin p) (F.fin q) = F.fin (p / q) := by
  simp [F.div, hq]

lemma F.frem_fin (p q : ℚ) (hq : q ≠ 0) :
    F.frem (F.fin p) (F.fin q) = F.fin (p - q * qtrunc (p / q)) := by
  simp [F.frem, hq]

/-! Evaluation lemmas for `qtrunc` and `qround`. -/

lemma qtrunc_eq_of_nonneg (q : ℚ) (n : ℤ) (h0 : 0 ≤ q) (h1 : (n : ℚ) ≤ q)
    (h2 : q < (n : ℚ) + 1) : qtrunc q = n := by
  rw [qtrunc, if_pos h0]
  rw [Int.floor_eq_iff]
  exact ⟨h1, by exact_mod_cast h2⟩

lemma qtrunc_eq_of_neg (q : ℚ) (n : ℤ) (h0 : q < 0) (h1 : (n : ℚ) - 1 < q)
    (h2 : q ≤ (n : ℚ)) : qtrunc q = n := by
  rw [qtrunc, if_neg (by exact not_le.mpr h0)]
  rw [Int.ceil_eq_iff]
  constructor
  · exact_mod_cast h1
  · exact_mod_cast h2

lemma qround_eq_of_nonneg (q : ℚ) (n : ℤ) (h0 : 0 ≤ q) (h1 : (n : ℚ) ≤ q + 1/2)
    (h2 : q + 1/2 < (n : ℚ) + 1) : qround q = n := by
  rw [qround, if_pos h0]
  rw [Int.floor_eq_iff]
  exact ⟨h1, by exact_mod_cast h2⟩

/-- The Rust `rem_euclid` on finite values with a positive modulus equals the
mathematical Euclidean remainder `q * fract (p / q)`. -/
theorem F.remEuclid_fin (p q : ℚ) (hq : 0 < q) :
    F.remEuclid (F.fin p) (F.fin q) = F.fin (q * Int.fract (p / q)) := by
  have hq0 : q ≠ 0 := ne_of_gt hq
  have hrepr : p = q * (p / q) := by field_simp
  have hfval : Int.fract (p / q) = p / q - ⌊p / q⌋ := (Int.self_sub_floor (p / q)).symm
  rw [F.remEuclid, F.frem_fin p q hq0]
  rcases le_or_lt 0 p with hp | hp
  · have htr : qtrunc (p / q) = ⌊p / q⌋ := by
      rw [qtrunc, if_pos (div_nonneg hp (le_of_lt hq))]
    have hval : p - q * ((⌊p / q⌋ : ℤ) : ℚ) = q * Int.fract (p / q) := by
      rw [hfval]
      nlinarith [hrepr]
    have hnn : (0 : ℚ) ≤ q * Int.fract (p / q) :=
      mul_nonneg (le_of_lt hq) (Int.fract_nonneg _)
    rw [htr, hval]
    rw [if_neg (by simp [F.flt]; exact hnn)]
  · rcases eq_or_ne (Int.fract (p / q)) 0 with hfz | hfnz
    · have hfloor_eq : ((⌊p / q⌋ : ℤ) : ℚ) = p / q := by
        rw [hfval] at hfz
        linarith
      have htr : qtrunc (p / q) = ⌊p / q⌋ := by
        rw [qtrunc]
        rcases le_or_lt 0 (p / q) with hd | hd
        · rw [if_pos hd]
        · rw [if_neg (not_le.mpr hd)]
          rw [Int.ceil_eq_iff]
          constructor
          · rw [hfloor_eq]; linarith
          · rw [hfloor_eq]
      have hval : p - q * ((⌊p / q⌋ : ℤ) : ℚ) = q * Int.fract (p / q) := by
        rw [hfval]
        nlinarith [hrepr]
      rw [htr, hval, hfz]
      rw [if_neg (by simp [F.flt])]
    · have hdneg : p / q < 0 := div_neg_of_neg_of_pos hp hq
      have hflne : ((⌊p / q⌋ : ℤ) : ℚ) ≠ p / q := by
        intro hcontra
        apply hfnz
        rw [hfval]
        linarith
      have hfllt : ((⌊p / q⌋ : ℤ) : ℚ) < p / q :=
        lt_of_le_of_ne (Int.floor_le _) hflne
      have htr : qtrunc (p / q) = ⌊p / q⌋ + 1 := by
        rw [qtrunc, if_neg (not_le.mpr hdneg)]
        rw [Int.ceil_eq_iff]
        constructor
        · push_cast
          linarith
        · push_cast
          exact le_of_lt (Int.lt_floor_add_one _)
      have hvneg : p - q * (((⌊p / q⌋ + 1 : ℤ) : ℤ) : ℚ) < 0 := by
        have h1 : p / q < ((⌊p / q⌋ : ℤ) : ℚ) + 1 := Int.lt_floor_add_one _
        push_cast
        nlinarith [hrepr]
      rw [htr]
      rw [if_pos (by simp [F.flt]; push_cast at hvneg ⊢; linarith)]
      have habs : |q| = q := abs_of_pos hq
      simp only [F.fabs_fin, F.add_fin, habs]
      congr 1
      rw [hfval]
      push_cast
      nlinarith [hrepr]

/-- Bounds of the Euclidean remainder: `q * fract (p / q) ∈ [0, q)`. -/
theorem remEuclid_bounds (p q : ℚ) (hq : 0 < q) :
    0 ≤ q * Int.fract (p / q) ∧ q * Int.fract (p / q) < q := by
  constructor
  · exact mul_nonneg (le_of_lt hq) (Int.fract_nonneg _)
  · have := Int.fract_lt_one (p / q)
    nlinarith

/-- Clamping a rational into `[0, 1]` through `convert_to_range`. -/
theorem convert_to_range01_fin (s : ℚ) :
    convert_to_range (F.fin s) (F.fin 0) (F.fin 1) = F.fin (max 0 (min 1 s)) := by
  rw [convert_to_range]
  rcases le_or_lt s 0 with h0 | h0
  · rw [if_pos (by simp [h0])]
    congr 1
    rw [min_eq_right (by linarith), max_eq_left h0]
  · rw [if_neg (by simp; linarith)]
    rcases le_or_lt 1 s with h1 | h1
    · rw [if_pos (by simp [h1])]
      congr 1
      rw [min_eq_left h1, max_eq_right (by norm_num)]
    · rw [if_neg (by simp; linarith)]
      congr 1
      rw [min_eq_right (le_of_lt h1), max_eq_right (le_of_lt h0)]

/-- Evaluation of `from_hsv` on finite inputs with in-range saturation and
value, where `k` is the number of full turns removed from the hue. -/
theorem from_hsv_eval (h s v : ℚ) (k : ℤ) (h1 : 360 * (k : ℚ) ≤ h)
    (h2 : h < 360 * ((k : ℚ) + 1)) (hs0 : 0 ≤ s) (hs1 : s ≤ 1) (hv0 : 0 ≤ v)
    (hv1 : v ≤ 1) :
    HSV.from_hsv (F.fin h) (F.fin s) (F.fin v) =
      some ⟨F.fin (h - 360 * (k : ℚ)), F.fin s, F.fin v⟩ := by
  rw [HSV.from_hsv]
  simp only [F.isNan_fin, F.isFinite_fin, Bool.or_self, Bool.not_true]
  rw [if_neg (by simp), if_neg (by simp)]
  have hfl : ⌊h / 360⌋ = k := by
    rw [Int.floor_eq_iff]
    constructor
    · rw [le_div_iff₀ (by norm_num)]; linarith
    · rw [div_lt_iff₀ (by norm_num)]; linarith
  have hrem : F.remEuclid (F.fin h) (F.fin 360) = F.fin (h - 360 * (k : ℚ)) := by
    rw [F.remEuclid_fin h 360 (by norm_num)]
    congr 1
    rw [Int.fract, hfl]
    field_simp
  rw [hrem, convert_to_range01_fin, convert_to_range01_fin]
  have hsv : max 0 (min 1 s) = s := by rw [min_eq_right hs1, max_eq_right hs0]
  have hvv : max 0 (min 1 v) = v := by rw [min_eq_right hv1, max_eq_right hv0]
  rw [hsv, hvv]

/-! Cast and rounding bound helpers. -/

lemma castU8_intCast (n : ℤ) (h0 : 0 ≤ n) (h1 : n ≤ 255) :
    castU8 (F.fin (n : ℚ)) = n.toNat := by
  rw [castU8]
  by_cases hz : (n : ℚ) ≤ 0
  · have : n = 0 := le_antisymm (by exact_mod_cast hz) h0
    subst this
    simp
  · rw [if_neg hz]
    by_cases hm : (255 : ℚ) ≤ (n : ℚ)
    · have : n = 255 := le_antisymm h1 (by exact_mod_cast hm)
      subst this
      simp
    · rw [if_neg hm]
      congr 1
      rw [qtrunc, if_pos (by push_cast; exact_mod_cast le_of_not_le hz)]
      exact Int.floor_intCast n

lemma castU16_intCast (n : ℤ) (h0 : 0 ≤ n) (h1 : n ≤ 65535) :
    castU16 (F.fin (n : ℚ)) = n.toNat := by
  rw [castU16]
  by_cases hz : (n : ℚ) ≤ 0
  · have : n = 0 := le_antisymm (by exact_mod_cast hz) h0
    subst this
    simp
  · rw [if_neg hz]
    by_cases hm : (65535 : ℚ) ≤ (n : ℚ)
    · have : n = 65535 := le_antisymm h1 (by exact_mod_cast hm)
      subst this
      simp
    · rw [if_neg hm]
      congr 1
      rw [qtrunc, if_pos (by push_cast; exact_mod_cast le_of_not_le hz)]
      exact Int.floor_intCast n

lemma castU32_intCast (n : ℤ) (h0 : 0 ≤ n) (h1 : n ≤ 4294967295) :
    castU32 (F.fin (n : ℚ)) = n.toNat := by
  rw [castU32]
  by_cases hz : (n : ℚ) ≤ 0
  · have : n = 0 := le_antisymm (by exact_mod_cast hz) h0
    subst this
    simp
  · rw [if_neg hz]
    by_cases hm : (4294967295 : ℚ) ≤ (n : ℚ)
    · have : n = 4294967295 := le_antisymm h1 (by exact_mod_cast hm)
      subst this
      simp
    · rw [if_neg hm]
      congr 1
      rw [qtrunc, if_pos (by push_cast; exact_mod_cast le_of_not_le hz)]
      exact Int.floor_intCast n

lemma qround_nonneg (q : ℚ) (h : 0 ≤ q) : 0 ≤ qround q := by
  rw [qround, if_pos h]
  rw [Int.le_floor]
  push_cast
  linarith

lemma qround_le (q : ℚ) (n : ℤ) (h0 : 0 ≤ q) (h : q + 1/2 < (n : ℚ) + 1) :
    qround q ≤ n := by
  rw [qround, if_pos h0]
  have : ⌊q + 1/2⌋ < n + 1 := by
    rw [Int.floor_lt]
    push_cast
    linarith
  omega

/-! ## Claim theorems -/

/-- C6: `approx_equal_f64` returns true when both arguments are NaN; false when
exactly one argument is non-finite; true for two infinities of the same sign
and false for opposite signs; false for NaN paired with an infinity; and on two
finite values it is true exactly when `|a − b| < epsilon`. -/
theorem c6_approx_equal_f64_spec (a b eps : F) :
    (a = F.nan ∧ b = F.nan → approx_equal_f64 a b eps = true)
    ∧ ((a.isFinite = true ∧ b.isFinite = false) ∨ (a.isFinite = false ∧ b.isFinite = true) →
        approx_equal_f64 a b eps = false)
    ∧ (a = F.inf ∧ b = F.inf → approx_equal_f64 a b eps = true)
    ∧ (a = F.ninf ∧ b = F.ninf → approx_equal_f64 a b eps = true)
    ∧ ((a = F.inf ∧ b = F.ninf) ∨ (a = F.ninf ∧ b = F.inf) → approx_equal_f64 a b eps = false)
    ∧ ((a = F.nan ∧ b.isInfinite = true) ∨ (a.isInfinite = true ∧ b = F.nan) →
        approx_equal_f64 a b eps = false)
    ∧ (∀ p q e : ℚ, a = F.fin p → b = F.fin q → eps = F.fin e →
        (approx_equal_f64 a b eps = true ↔ |p - q| < e)) := by
  cases a <;> cases b <;>
    simp [approx_equal_f64, F.isFinite, F.isNan, F.isInfinite, F.isSignPositive,
      F.isSignNegative, F.sub, F.fabs, F.flt]
  intro p q e hp hq he
  subst hp
  subst hq
  subst he
  simp [F.flt]

/-- C6 witness: evaluation of the theorem at concrete inputs. -/
theorem c6_approx_equal_f64_spec_witness :
    approx_equal_f64 F.nan F.nan (F.fin 1) = true
    ∧ approx_equal_f64 F.inf (F.fin 1) (F.fin 1) = false
    ∧ approx_equal_f64 F.inf F.inf (F.fin 1) = true
    ∧ approx_equal_f64 F.inf F.ninf (F.fin 1) = false
    ∧ approx_equal_f64 (F.fin 1) (F.fin (101/100)) (F.fin (1/10)) = true := by
  refine ⟨?_, ?_, ?_, ?_, ?_⟩
  · exact (c6_approx_equal_f64_spec F.nan F.nan (F.fin 1)).1 ⟨rfl, rfl⟩
  · exact (c6_approx_equal_f64_spec F.inf (F.fin 1) (F.fin 1)).2.1 (Or.inr ⟨rfl, rfl⟩)
  · exact (c6_approx_equal_f64_spec F.inf F.inf (F.fin 1)).2.2.1 ⟨rfl, rfl⟩
  · exact (c6_approx_equal_f64_spec F.inf F.ninf (F.fin 1)).2.2.2.2.1 (Or.inl ⟨rfl, rfl⟩)
  · refine ((c6_approx_equal_f64_spec (F.fin 1) (F.fin (101/100))
      (F.fin (1/10))).2.2.2.2.2.2 1 (101/100) (1/10) rfl rfl rfl).mpr ?_
    rw [abs_of_nonpos (by norm_num)]
    norm_num

/-- C7: the fraction-to-channel conversions map any input at least 1 (including
+∞) to the channel maximum, any input at most 0 (including −∞) to 0, NaN to 0,
and any input strictly between 0 and 1 to `round(input * max)` with rounding to
nearest. -/
theorem c7_to_repr_spec (x : F) :
    (F.fge x (F.fin 1) = true → to_u8_repr x = 255 ∧ to_u16_repr x = 65535)
    ∧ (F.fle x (F.fin 0) = true → to_u8_repr x = 0 ∧ to_u16_repr x = 0)
    ∧ (x = F.nan → to_u8_repr x = 0 ∧ to_u16_repr x = 0)
    ∧ (∀ q : ℚ, x = F.fin q → 0 < q → q < 1 →
        to_u8_repr x = (qround (q * 255)).toNat
        ∧ to_u16_repr x = (qround (q * 65535)).toNat) := by
  refine ⟨?_, ?_, ?_, ?_⟩
  · intro hge
    constructor
    · rw [to_u8_repr, if_pos hge]
    · rw [to_u16_repr, if_pos hge]
  · intro hle
    have hnge : F.fge x (F.fin 1) = false := by
      cases x <;> simp_all [F.fge, F.fle] <;> linarith
    constructor
    · rw [to_u8_repr, hnge, if_neg (by simp), if_pos hle]
    · rw [to_u16_repr, hnge, if_neg (by simp), if_pos hle]
  · intro hx
    subst hx
    constructor
    · rw [to_u8_repr]
      rfl
    · rw [to_u16_repr]
      rfl
  · intro q hx h0 h1
    subst hx
    have hnge : F.fge (F.fin q) (F.fin 1) = false := by simp; linarith
    have hnle : F.fle (F.fin q) (F.fin 0) = false := by simp; linarith
    constructor
    · rw [to_u8_repr, hnge, if_neg (by simp), hnle, if_neg (by simp)]
      simp only [F.mul_fin, F.round_fin]
      exact castU8_intCast _ (qround_nonneg _ (by positivity))
        (qround_le _ 255 (by positivity) (by nlinarith))
    · rw [to_u16_repr, hnge, if_neg (by simp), hnle, if_neg (by simp)]
      simp only [F.mul_fin, F.round_fin]
      exact castU16_intCast _ (qround_nonneg _ (by positivity))
        (qround_le _ 65535 (by positivity) (by nlinarith))

/-- C7 witness: evaluation at `x = 1/2` and at the special values. -/
theorem c7_to_repr_spec_witness :
    (0 : ℚ) < 1/2 ∧ (1/2 : ℚ) < 1
    ∧ to_u8_repr (F.fin (1/2)) = (qround ((1/2 : ℚ) * 255)).toNat
    ∧ to_u16_repr (F.fin (1/2)) = (qround ((1/2 : ℚ) * 65535)).toNat
    ∧ to_u8_repr F.inf = 255 ∧ to_u8_repr F.ninf = 0 ∧ to_u8_repr F.nan = 0 := by
  have hmain := (c7_to_repr_spec (F.fin (1/2))).2.2.2 (1/2) rfl (by norm_num) (by norm_num)
  refine ⟨by norm_num, by norm_num, hmain.1, hmain.2, ?_, ?_, ?_⟩
  · exact ((c7_to_repr_spec F.inf).1 rfl).1
  · exact ((c7_to_repr_spec F.ninf).2.1 rfl).1
  · exact ((c7_to_repr_spec F.nan).2.2.1 rfl).1

/-- C10: HSV equality (the `PartialEq` impl, per-channel `approx_equal_f64`
with epsilon `1e-7`) is not transitive: three constructible HSV values with
hues 0, 9e-8 and 1.8e-7 satisfy `a == b` and `b == c` but not `a == c`. -/
theorem c10_hsv_eq_not_transitive :
    HSV.beq ⟨F.fin 0, F.fin 0, F.fin 0⟩ ⟨F.fin (9/100000000), F.fin 0, F.fin 0⟩ = true
    ∧ HSV.beq ⟨F.fin (9/100000000), F.fin 0, F.fin 0⟩
        ⟨F.fin (18/100000000), F.fin 0, F.fin 0⟩ = true
    ∧ HSV.beq ⟨F.fin 0, F.fin 0, F.fin 0⟩ ⟨F.fin (18/100000000), F.fin 0, F.fin 0⟩ = false
    ∧ HSV.from_hsv (F.fin 0) (F.fin 0) (F.fin 0) = some ⟨F.fin 0, F.fin 0, F.fin 0⟩
    ∧ HSV.from_hsv (F.fin (9/100000000)) (F.fin 0) (F.fin 0) =
        some ⟨F.fin (9/100000000), F.fin 0, F.fin 0⟩
    ∧ HSV.from_hsv (F.fin (18/100000000)) (F.fin 0) (F.fin 0) =
        some ⟨F.fin (18/100000000), F.fin 0, F.fin 0⟩ := by
  refine ⟨?_, ?_, ?_, ?_, ?_, ?_⟩
  · simp [HSV.beq, approx_equal_f64, F.isFinite, F.sub, F.fabs, F.flt, HSV.EPSILON]
    rw [abs_of_nonneg (by norm_num)]
    norm_num
  · simp [HSV.beq, approx_equal_f64, F.isFinite, F.sub, F.fabs, F.flt, HSV.EPSILON]
    rw [abs_sub_lt_iff]
    constructor <;> norm_num
  · simp [HSV.beq, approx_equal_f64, F.isFinite, F.sub, F.fabs, F.flt, HSV.EPSILON]
    rw [abs_of_nonneg (by norm_num)]
    norm_num
  · have := from_hsv_eval 0 0 0 0 (by norm_num) (by norm_num) (by norm_num)
      (by norm_num) (by norm_num) (by norm_num)
    simpa using this
  · have := from_hsv_eval (9/100000000) 0 0 0 (by norm_num) (by norm_num)
      (by norm_num) (by norm_num) (by norm_num) (by norm_num)
    simpa using this
  · have := from_hsv_eval (18/100000000) 0 0 0 (by norm_num) (by norm_num)
      (by norm_num) (by norm_num) (by norm_num) (by norm_num)
    simpa using this

/-- C1: `from_hsv` fails exactly when one of the three arguments is NaN or the
hue is infinite; in particular an infinite saturation or value is accepted and
clamped (positive infinity to 1), as in `from_hsv(10.0, +inf, +inf)`. -/
theorem c1_from_hsv_failure_iff :
    (∀ h s v : F, HSV.from_hsv h s v = none ↔
      (h.isNan = true ∨ s.isNan = true ∨ v.isNan = true ∨ h.isInfinite = true))
    ∧ HSV.from_hsv (F.fin 10) F.inf F.inf = some ⟨F.fin 10, F.fin 1, F.fin 1⟩
    ∧ HSV.from_hsv F.nan (F.fin 1) (F.fin 1) = none
    ∧ HSV.from_hsv F.inf (F.fin 0) (F.fin 0) = none
    ∧ HSV.from_hsv (F.fin 10) F.ninf F.ninf = some ⟨F.fin 10, F.fin 0, F.fin 0⟩ := by
  have hrem10 : F.remEuclid (F.fin 10) (F.fin 360) = F.fin 10 := by
    rw [F.remEuclid, F.frem_fin 10 360 (by norm_num)]
    rw [qtrunc_eq_of_nonneg (10/360) 0 (by norm_num) (by norm_num) (by norm_num)]
    norm_num
  refine ⟨?_, ?_, ?_, ?_, ?_⟩
  · intro h s v
    cases h <;> cases s <;> cases v <;>
      simp [HSV.from_hsv, F.isNan, F.isFinite, F.isInfinite]
  · rw [HSV.from_hsv]
    simp only [F.isNan_fin, F.isFinite_fin]
    rw [if_neg (by simp [F.isNan]), if_neg (by simp)]
    rw [hrem10]
    rfl
  · rw [HSV.from_hsv]
    rw [if_pos (by simp [F.isNan])]
  · rw [HSV.from_hsv]
    rw [if_neg (by simp [F.isNan]), if_pos (by simp [F.isFinite])]
  · rw [HSV.from_hsv]
    rw [if_neg (by simp [F.isNan]), if_neg (by simp)]
    rw [hrem10]
    rfl

/-- C2: every accepted HSV input has a finite hue, and the stored hue is the
input hue minus a whole number of 360° turns (cyclic wrap, never a clamp),
lying in `[0, 360)`; the stored saturation and value lie in `[0, 1]`. -/
theorem c2_from_hsv_invariants (h s v : F) (c : HSV)
    (hc : HSV.from_hsv h s v = some c) :
    (∃ hq : ℚ, h = F.fin hq ∧ ∃ k : ℤ, c.h = F.fin (hq - 360 * (k : ℚ))
      ∧ 0 ≤ hq - 360 * (k : ℚ) ∧ hq - 360 * (k : ℚ) < 360)
    ∧ (∃ sq : ℚ, c.s = F.fin sq ∧ 0 ≤ sq ∧ sq ≤ 1)
    ∧ (∃ vq : ℚ, c.v = F.fin vq ∧ 0 ≤ vq ∧ vq ≤ 1) := by
  have hconv : ∀ x : F, x.isNan = false → ∃ xq : ℚ,
      convert_to_range x (F.fin 0) (F.fin 1) = F.fin xq ∧ 0 ≤ xq ∧ xq ≤ 1 := by
    intro x hx
    cases x with
    | fin q =>
        refine ⟨max 0 (min 1 q), convert_to_range01_fin q, le_max_left _ _, ?_⟩
        rw [max_le_iff]
        exact ⟨by norm_num, min_le_left _ _⟩
    | nan => simp [F.isNan] at hx
    | inf =>
        refine ⟨1, ?_, by norm_num, by norm_num⟩
        rw [convert_to_range]
        rfl
    | ninf =>
        refine ⟨0, ?_, by norm_num, by norm_num⟩
        rw [convert_to_range]
        rfl
  rw [HSV.from_hsv] at hc
  by_cases hn : (h.isNan || s.isNan || v.isNan) = true
  · rw [if_pos hn] at hc
    exact absurd hc (by simp)
  · rw [if_neg hn] at hc
    have hsn : s.isNan = false := by
      rcases Bool.eq_false_or_eq_true s.isNan with hb | hb
      · exact absurd (by simp [hb]) hn
      · exact hb
    have hvn : v.isNan = false := by
      rcases Bool.eq_false_or_eq_true v.isNan with hb | hb
      · exact absurd (by simp [hb]) hn
      · exact hb
    by_cases hf : (!h.isFinite) = true
    · rw [if_pos hf] at hc
      exact absurd hc (by simp)
    · rw [if_neg hf] at hc
      obtain ⟨hq, rfl⟩ : ∃ hq : ℚ, h = F.fin hq := by
        cases h with
        | fin q => exact ⟨q, rfl⟩
        | nan => simp [F.isFinite] at hf
        | inf => simp [F.isFinite] at hf
        | ninf => simp [F.isFinite] at hf
      have hcval := (Option.some.injEq _ _).mp hc
      obtain ⟨sq, hsq, hsq0, hsq1⟩ := hconv s hsn
      obtain ⟨vq, hvq, hvq0, hvq1⟩ := hconv v hvn
      have hfr : (360 : ℚ) * Int.fract (hq / 360) = hq - 360 * (⌊hq / 360⌋ : ℚ) := by
        rw [Int.fract]
        field_simp
      refine ⟨⟨hq, rfl, ⟨⌊hq / 360⌋, ?_, ?_, ?_⟩⟩, ⟨sq, ?_, hsq0, hsq1⟩,
        ⟨vq, ?_, hvq0, hvq1⟩⟩
      · rw [← hcval, F.remEuclid_fin hq 360 (by norm_num), hfr]
      · rw [← hfr]
        exact (remEuclid_bounds hq 360 (by norm_num)).1
      · rw [← hfr]
        exact (remEuclid_bounds hq 360 (by norm_num)).2
      · rw [← hcval, hsq]
      · rw [← hcval, hvq]

/-- C2 witness: evaluation at the out-of-range input `(370, 2, -1)`, which is
accepted with hue wrapped to 10 and saturation and value clamped. -/
theorem c2_from_hsv_invariants_witness :
    (∃ hq : ℚ, F.fin (370:ℚ) = F.fin hq ∧ ∃ k : ℤ,
      (HSV.mk (F.fin 10) (F.fin 1) (F.fin 0)).h = F.fin (hq - 360 * (k : ℚ))
      ∧ 0 ≤ hq - 360 * (k : ℚ) ∧ hq - 360 * (k : ℚ) < 360)
    ∧ (∃ sq : ℚ, (HSV.mk (F.fin 10) (F.fin 1) (F.fin 0)).s = F.fin sq
        ∧ 0 ≤ sq ∧ sq ≤ 1)
    ∧ (∃ vq : ℚ, (HSV.mk (F.fin 10) (F.fin 1) (F.fin 0)).v = F.fin vq
        ∧ 0 ≤ vq ∧ vq ≤ 1) := by
  refine c2_from_hsv_invariants (F.fin 370) (F.fin 2) (F.fin (-1))
    ⟨F.fin 10, F.fin 1, F.fin 0⟩ ?_
  rw [HSV.from_hsv]
  rw [if_neg (by simp [F.isNan]), if_neg (by simp [F.isFinite])]
  have hrem : F.remEuclid (F.fin 370) (F.fin 360) = F.fin 10 := by
    rw [F.remEuclid, F.frem_fin 370 360 (by norm_num)]
    rw [qtrunc_eq_of_nonneg (370/360) 1 (by norm_num) (by norm_num) (by norm_num)]
    norm_num
  rw [hrem]
  rw [convert_to_range01_fin, convert_to_range01_fin]
  norm_num

/-! Hex digit and bitwise helpers for the codec claims. -/

/-- A character is a lowercase hexadecimal digit: `0`-`9` or `a`-`f`. -/
def isLowerHexDigit (c : Char) : Bool :=
  (decide ('0' ≤ c) && decide (c ≤ '9')) || (decide ('a' ≤ c) && decide (c ≤ 'f'))

lemma hexChar_isLowerHexDigit (d : Nat) (h : d < 16) :
    isLowerHexDigit (hexChar d) = true := by
  revert d h
  decide

lemma hexDigitVal_hexChar (d : Nat) (h : d < 16) : hexDigitVal (hexChar d) = some d := by
  revert d h
  decide

lemma hexChar_ne_plus (d : Nat) (h : d < 16) : hexChar d ≠ '+' := by
  revert d h
  decide

lemma log2_256 : Nat.log2 256 = 8 := by
  simp [Nat.log2]

lemma log2_16 : Nat.log2 16 = 4 := by
  simp [Nat.log2]

/-- Bitwise or of a left-shifted value and a value fitting in the shifted-away
bits is their sum (so `(r << 16) | (g << 8) | b` is plain base-256 packing). -/
lemma shiftLeft_lor_eq_add (k : Nat) :
    ∀ a b : Nat, b < 2 ^ k → (a <<< k) ||| b = a <<< k + b := by
  induction k with
  | zero =>
      intro a b hb
      have hb0 : b = 0 := by omega
      subst hb0
      simp
  | succ n ih =>
      intro a b hb
      have hd : b.div2 < 2 ^ n := by
        rw [Nat.div2_val]
        omega
      have hl : a <<< (n + 1) = Nat.bit false (a <<< n) := by
        rw [Nat.shiftLeft_eq, Nat.shiftLeft_eq, Nat.bit]
        simp
        ring
      rw [hl, ← Nat.bit_decomp b, Nat.lor_bit]
      rw [ih a b.div2 hd]
      cases hbo : b.bodd <;>
        simp [Nat.bit, Nat.div2_val, Nat.shiftLeft_eq] <;>
        rw [Nat.shiftLeft_eq] at * <;>
        have := Nat.bodd_add_div2 b <;>
        rw [hbo] at this <;>
        simp at this <;>
        omega

lemma radixAccum_cons (acc : Nat) (c : Char) (cs : List Char) (d : Nat)
    (hd : hexDigitVal c = some d) (hov : acc * 16 + d ≤ 4294967295) :
    radixAccum acc (c :: cs) = radixAccum (acc * 16 + d) cs := by
  rw [radixAccum, hd]
  show (if acc * 16 + d ≤ 4294967295 then radixAccum (acc * 16 + d) cs else none) = _
  rw [if_pos hov]

/-- `from_int` with base 256 extracts the three base-256 digits. -/
lemma from_int_256 (n : Nat) :
    RGB24.from_int n 256 = ⟨n / 65536 % 256 % 256, n / 256 % 256 % 256, n % 256 % 256⟩ := by
  rw [RGB24.from_int, log2_256]
  have h8 : ∀ m : Nat, m >>> 8 = m / 256 := by
    intro m
    rw [Nat.shiftRight_eq_div_pow]
  simp only [h8]
  rw [RGB24.from_rgb]
  simp only [RGB24.mk.injEq]
  norm_num [Nat.div_div_eq_div_mul]

/-- `from_int` with base 16 extracts the three nibbles and expands each by the
factor `255 / 15 = 17`. -/
lemma from_int_16 (n : Nat) :
    RGB24.from_int n 16 = ⟨n / 256 % 16 * 17 % 256, n / 16 % 16 * 17 % 256, n % 16 * 17 % 256⟩ := by
  rw [RGB24.from_int, log2_16]
  have h4 : ∀ m : Nat, m >>> 4 = m / 16 := by
    intro m
    rw [Nat.shiftRight_eq_div_pow]
  simp only [h4]
  rw [RGB24.from_rgb]
  simp only [RGB24.mk.injEq]
  norm_num [Nat.div_div_eq_div_mul]

/-- Parsing the six digit characters of a value below `16^6` recovers it. -/
lemma fromStrRadix16_digits (n : Nat) (hn : n < 16777216) :
    fromStrRadix16 [hexChar (n / 16 ^ 5 % 16), hexChar (n / 16 ^ 4 % 16),
      hexChar (n / 16 ^ 3 % 16), hexChar (n / 16 ^ 2 % 16),
      hexChar (n / 16 % 16), hexChar (n % 16)] = some n := by
  have e5 : n / 16 ^ 5 % 16 < 16 := Nat.mod_lt _ (by norm_num)
  have e4 : n / 16 ^ 4 % 16 < 16 := Nat.mod_lt _ (by norm_num)
  have e3 : n / 16 ^ 3 % 16 < 16 := Nat.mod_lt _ (by norm_num)
  have e2 : n / 16 ^ 2 % 16 < 16 := Nat.mod_lt _ (by norm_num)
  have e1 : n / 16 % 16 < 16 := Nat.mod_lt _ (by norm_num)
  have e0 : n % 16 < 16 := Nat.mod_lt _ (by norm_num)
  rw [fromStrRadix16]
  rw [if_neg (hexChar_ne_plus _ e5)]
  rw [radixAccum_cons _ _ _ _ (hexDigitVal_hexChar _ e5) (by omega)]
  rw [radixAccum_cons _ _ _ _ (hexDigitVal_hexChar _ e4) (by omega)]
  rw [radixAccum_cons _ _ _ _ (hexDigitVal_hexChar _ e3) (by omega)]
  rw [radixAccum_cons _ _ _ _ (hexDigitVal_hexChar _ e2) (by omega)]
  rw [radixAccum_cons _ _ _ _ (hexDigitVal_hexChar _ e1) (by omega)]
  rw [radixAccum_cons _ _ _ _ (hexDigitVal_hexChar _ e0) (by omega)]
  rw [radixAccum]
  congr 1
  have h5 : n / 16 ^ 5 % 16 = n / 1048576 % 16 := by norm_num
  have h4 : n / 16 ^ 4 % 16 = n / 65536 % 16 := by norm_num
  have h3 : n / 16 ^ 3 % 16 = n / 4096 % 16 := by norm_num
  have h2 : n / 16 ^ 2 % 16 = n / 256 % 16 := by norm_num
  rw [h5, h4, h3, h2]
  omega

/-- C3: for every 8-bit triple, `to_hex` is the six-lowercase-digit rendering
of the packed value `(r << 16) | (g << 8) | b`, and `from_hex` parses it back
to an equal color. -/
theorem c3_hex_roundtrip (r g b : Nat) (hr : r < 256) (hg : g < 256) (hb : b < 256) :
    RGB24.to_hex (RGB24.from_rgb r g b) =
      [hexChar (((r <<< 16) ||| (g <<< 8) ||| b) / 16 ^ 5 % 16),
       hexChar (((r <<< 16) ||| (g <<< 8) ||| b) / 16 ^ 4 % 16),
       hexChar (((r <<< 16) ||| (g <<< 8) ||| b) / 16 ^ 3 % 16),
       hexChar (((r <<< 16) ||| (g <<< 8) ||| b) / 16 ^ 2 % 16),
       hexChar (((r <<< 16) ||| (g <<< 8) ||| b) / 16 % 16),
       hexChar (((r <<< 16) ||| (g <<< 8) ||| b) % 16)]
    ∧ (RGB24.to_hex (RGB24.from_rgb r g b)).length = 6
    ∧ (∀ ch ∈ RGB24.to_hex (RGB24.from_rgb r g b), isLowerHexDigit ch = true)
    ∧ RGB24.from_hex (RGB24.to_hex (RGB24.from_rgb r g b)) = some (RGB24.from_rgb r g b) := by
  have hpack : (r <<< 16) ||| (g <<< 8) ||| b = r <<< 16 + (g <<< 8 + b) := by
    rw [Nat.lor_assoc]
    rw [shiftLeft_lor_eq_add 8 g b (by omega)]
    rw [shiftLeft_lor_eq_add 16 r (g <<< 8 + b)
      (by rw [Nat.shiftLeft_eq]; norm_num; omega)]
  have hsum : r <<< 16 + (g <<< 8 + b) = r * 65536 + g * 256 + b := by
    rw [Nat.shiftLeft_eq, Nat.shiftLeft_eq]
    norm_num
    ring
  have hto : RGB24.to_hex (RGB24.from_rgb r g b) =
      [hexChar ((r * 65536 + g * 256 + b) / 16 ^ 5 % 16),
       hexChar ((r * 65536 + g * 256 + b) / 16 ^ 4 % 16),
       hexChar ((r * 65536 + g * 256 + b) / 16 ^ 3 % 16),
       hexChar ((r * 65536 + g * 256 + b) / 16 ^ 2 % 16),
       hexChar ((r * 65536 + g * 256 + b) / 16 % 16),
       hexChar ((r * 65536 + g * 256 + b) % 16)] := by
    rw [RGB24.to_hex]
    have : RGB24.from_rgb r g b = ⟨r, g, b⟩ := rfl
    rw [this]
    simp only []
    rw [show (⟨r, g, b⟩ : RGB24).r <<< 16 + (⟨r, g, b⟩ : RGB24).g <<< 8 + (⟨r, g, b⟩ : RGB24).b
        = r * 65536 + g * 256 + b by
      show r <<< 16 + g <<< 8 + b = _
      rw [Nat.shiftLeft_eq, Nat.shiftLeft_eq]]
  have hn : r * 65536 + g * 256 + b < 16777216 := by omega
  refine ⟨?_, ?_, ?_, ?_⟩
  · rw [hto, hpack, hsum]
  · rw [hto]
    rfl
  · rw [hto]
    intro ch hch
    have hlt : ∀ m : Nat, m % 16 < 16 := fun m => Nat.mod_lt _ (by norm_num)
    simp only [List.mem_cons, List.not_mem_nil, or_false] at hch
    rcases hch with h | h | h | h | h | h <;> subst h <;>
      exact hexChar_isLowerHexDigit _ (hlt _)
  · rw [hto, RGB24.from_hex]
    rw [fromStrRadix16_digits _ hn]
    simp only [List.length_cons, List.length_nil]
    norm_num [from_int_256]
    rw [RGB24.from_rgb]
    simp only [RGB24.mk.injEq]
    refine ⟨by omega, by omega, by omega⟩

/-- C3 witness: evaluation of the round trip at `(166, 65, 21)` (`"a64115"`). -/
theorem c3_hex_roundtrip_witness :
    RGB24.to_hex (RGB24.from_rgb 166 65 21) = ['a', '6', '4', '1', '1', '5']
    ∧ RGB24.from_hex (RGB24.to_hex (RGB24.from_rgb 166 65 21)) =
        some (RGB24.from_rgb 166 65 21) := by
  have h := c3_hex_roundtrip 166 65 21 (by norm_num) (by norm_num) (by norm_num)
  refine ⟨?_, h.2.2.2⟩
  rw [h.1]
  rfl

/-- C8: upscaling multiplies every channel by the exact factor
`65535 / 255 = 257`, downscaling after upscaling is the identity on every valid
24-bit color, and the opposite composition is not the identity. -/
theorem c8_depth_rescale (r g b : Nat) (hr : r < 256) (hg : g < 256) (hb : b < 256) :
    rgb24_to_rgb48 (RGB24.from_rgb r g b) = RGB48.from_rgb (r * 257) (g * 257) (b * 257)
    ∧ rgb48_to_rgb24 (rgb24_to_rgb48 (RGB24.from_rgb r g b)) = RGB24.from_rgb r g b
    ∧ (∃ y : RGB48, y.r < 65536 ∧ y.g < 65536 ∧ y.b < 65536 ∧
        rgb24_to_rgb48 (rgb48_to_rgb24 y) ≠ y) := by
  refine ⟨?_, ?_, ⟨⟨1, 0, 0⟩, by norm_num, by norm_num, by norm_num, by decide⟩⟩
  · rw [rgb24_to_rgb48, RGB24.from_rgb, RGB48.from_rgb, RGB48.from_rgb]
    norm_num
    exact ⟨by omega, by omega, by omega⟩
  · rw [rgb24_to_rgb48, rgb48_to_rgb24, RGB24.from_rgb, RGB48.from_rgb, RGB24.from_rgb]
    norm_num
    rw [Nat.mod_eq_of_lt (show r * 257 < 65536 by omega),
      Nat.mod_eq_of_lt (show g * 257 < 65536 by omega),
      Nat.mod_eq_of_lt (show b * 257 < 65536 by omega),
      Nat.mul_div_cancel _ (show 0 < 257 by norm_num),
      Nat.mul_div_cancel _ (show 0 < 257 by norm_num),
      Nat.mul_div_cancel _ (show 0 < 257 by norm_num),
      Nat.mod_eq_of_lt hr, Nat.mod_eq_of_lt hg, Nat.mod_eq_of_lt hb]
    exact ⟨rfl, rfl, rfl⟩

/-- C8 witness: evaluation at the color `(1, 2, 3)`. -/
theorem c8_depth_rescale_witness :
    rgb24_to_rgb48 (RGB24.from_rgb 1 2 3) = RGB48.from_rgb 257 514 771
    ∧ rgb48_to_rgb24 (rgb24_to_rgb48 (RGB24.from_rgb 1 2 3)) = RGB24.from_rgb 1 2 3 := by
  have h := c8_depth_rescale 1 2 3 (by norm_num) (by norm_num) (by norm_num)
  exact ⟨h.1, h.2.1⟩

/-- C4 (code bug in `from_hex`): the underlying `u32::from_str_radix` accepts a
leading `+` sign, so the three-character string `"+00"` — whose first character
is not a hexadecimal digit even by the parser's own digit table — is accepted
and yields black instead of failing, and the six-character `"+0000f"` is
likewise accepted. -/
theorem c4_from_hex_accepts_plus_sign :
    hexDigitVal '+' = none
    ∧ RGB24.from_hex ['+', '0', '0'] = some (RGB24.from_rgb 0 0 0)
    ∧ RGB24.from_hex ['+', '0', '0', '0', '0', 'f'] = some (RGB24.from_rgb 0 0 15) := by
  refine ⟨by decide, ?_, ?_⟩
  · rw [RGB24.from_hex]
    rw [show fromStrRadix16 ['+', '0', '0'] = some 0 by
      rw [fromStrRadix16]
      rw [if_pos rfl, if_neg (by simp)]
      rw [radixAccum_cons _ _ _ 0 (by decide) (by norm_num)]
      rw [radixAccum_cons _ _ _ 0 (by decide) (by norm_num)]
      norm_num [radixAccum]]
    norm_num [from_int_16, RGB24.from_rgb]
  · rw [RGB24.from_hex]
    rw [show fromStrRadix16 ['+', '0', '0', '0', '0', 'f'] = some 15 by
      rw [fromStrRadix16]
      rw [if_pos rfl, if_neg (by simp)]
      rw [radixAccum_cons _ _ _ 0 (by decide) (by norm_num)]
      rw [radixAccum_cons _ _ _ 0 (by decide) (by norm_num)]
      rw [radixAccum_cons _ _ _ 0 (by decide) (by norm_num)]
      rw [radixAccum_cons _ _ _ 0 (by decide) (by norm_num)]
      rw [radixAccum_cons _ _ _ 15 (by decide) (by norm_num)]
      norm_num [radixAccum]]
    norm_num [from_int_256, RGB24.from_rgb]

/-- Evaluation of one `to_hex_short` channel level: the `f64` pipeline
`(c / 255 * 15).round() as u32` equals the rational `round(c * 15 / 255)`,
which is at most 15 for byte channels. -/
lemma to_hex_short_level (c : Nat) (hc : c < 256) :
    castU32 (F.round (F.mul (F.div (F.fin c) (F.fin 255)) (F.fin 15)))
      = (qround ((c : Nat) * 15 / 255 : ℚ)).toNat
    ∧ (qround ((c : Nat) * 15 / 255 : ℚ)).toNat ≤ 15 := by
  have hdiv : F.div (F.fin c) (F.fin 255) = F.fin ((c : ℚ) / 255) :=
    F.div_fin _ _ (by norm_num)
  have harg : (c : ℚ) / 255 * 15 = ((c : Nat) * 15 / 255 : ℚ) := by
    push_cast
    ring
  have h0 : (0 : ℚ) ≤ ((c : Nat) * 15 / 255 : ℚ) := by positivity
  have hle : ((c : Nat) * 15 / 255 : ℚ) ≤ 15 := by
    rw [div_le_iff₀ (by norm_num)]
    have hcle : (c : ℚ) ≤ 255 := by
      have : c ≤ 255 := by omega
      exact_mod_cast this
    push_cast
    nlinarith
  have hq0 : 0 ≤ qround ((c : Nat) * 15 / 255 : ℚ) := qround_nonneg _ h0
  have hql : qround ((c : Nat) * 15 / 255 : ℚ) ≤ 15 :=
    qround_le _ 15 h0 (by push_cast; linarith)
  constructor
  · rw [hdiv]
    simp only [F.mul_fin, F.round_fin]
    rw [harg]
    exact castU32_intCast _ hq0 (by omega)
  · omega

/-- The three digit characters produced by `to_hex_short` on a byte triple. -/
lemma to_hex_short_eval (r g b : Nat) (hr : r < 256) (hg : g < 256) (hb : b < 256) :
    RGB24.to_hex_short (RGB24.from_rgb r g b) =
      [hexChar (qround ((r : Nat) * 15 / 255 : ℚ)).toNat,
       hexChar (qround ((g : Nat) * 15 / 255 : ℚ)).toNat,
       hexChar (qround ((b : Nat) * 15 / 255 : ℚ)).toNat] := by
  obtain ⟨hrv, hrb⟩ := to_hex_short_level r hr
  obtain ⟨hgv, hgb⟩ := to_hex_short_level g hg
  obtain ⟨hbv, hbb⟩ := to_hex_short_level b hb
  rw [RGB24.to_hex_short, RGB24.from_rgb]
  simp only []
  rw [hrv, hgv, hbv]
  have hsh : ∀ R G B : Nat, R ≤ 15 → G ≤ 15 → B ≤ 15 →
      ((R <<< 8 + G <<< 4 + B) / 16 ^ 2 % 16 = R
        ∧ (R <<< 8 + G <<< 4 + B) / 16 % 16 = G
        ∧ (R <<< 8 + G <<< 4 + B) % 16 = B) := by
    intro R G B hR hG hB
    rw [Nat.shiftLeft_eq, Nat.shiftLeft_eq]
    norm_num
    refine ⟨by omega, by omega, by omega⟩
  obtain ⟨h1, h2, h3⟩ := hsh _ _ _ hrb hgb hbb
  rw [h1, h2, h3]

/-- C9: `to_hex_short` renders exactly three lowercase hex digits, each equal
to `round(channel / 255 * 15)` (nearest of 16 levels with 15-divisor scaling),
and in particular `from_hex("f0f0f0").to_hex_short() = "eee"`. -/
theorem c9_to_hex_short_spec (r g b : Nat) (hr : r < 256) (hg : g < 256) (hb : b < 256) :
    RGB24.to_hex_short (RGB24.from_rgb r g b) =
      [hexChar (qround ((r : Nat) * 15 / 255 : ℚ)).toNat,
       hexChar (qround ((g : Nat) * 15 / 255 : ℚ)).toNat,
       hexChar (qround ((b : Nat) * 15 / 255 : ℚ)).toNat]
    ∧ (RGB24.to_hex_short (RGB24.from_rgb r g b)).length = 3
    ∧ (∀ ch ∈ RGB24.to_hex_short (RGB24.from_rgb r g b), isLowerHexDigit ch = true)
    ∧ Option.map RGB24.to_hex_short (RGB24.from_hex ['f', '0', 'f', '0', 'f', '0']) =
        some ['e', 'e', 'e'] := by
  have hshort := to_hex_short_eval r g b hr hg hb
  refine ⟨hshort, by rw [hshort]; rfl, ?_, ?_⟩
  · rw [hshort]
    intro ch hch
    simp only [List.mem_cons, List.not_mem_nil, or_false] at hch
    have hb15 : ∀ c : Nat, c < 256 → (qround ((c : Nat) * 15 / 255 : ℚ)).toNat < 16 := by
      intro c hc
      have := (to_hex_short_level c hc).2
      omega
    rcases hch with h | h | h <;> subst h <;> exact hexChar_isLowerHexDigit _ (hb15 _ (by omega))
  · have hdig : (['f', '0', 'f', '0', 'f', '0'] : List Char) =
        [hexChar (15790320 / 16 ^ 5 % 16), hexChar (15790320 / 16 ^ 4 % 16),
         hexChar (15790320 / 16 ^ 3 % 16), hexChar (15790320 / 16 ^ 2 % 16),
         hexChar (15790320 / 16 % 16), hexChar (15790320 % 16)] := by
      decide
    have hparse : RGB24.from_hex ['f', '0', 'f', '0', 'f', '0'] =
        some (RGB24.from_rgb 240 240 240) := by
      rw [hdig, RGB24.from_hex, fromStrRadix16_digits 15790320 (by norm_num)]
      norm_num [from_int_256, RGB24.from_rgb]
    have hq : qround ((240 : Nat) * 15 / 255 : ℚ) = 14 := by
      have harg : ((240 : Nat) * 15 / 255 : ℚ) = 3600 / 255 := by norm_num
      rw [harg]
      exact qround_eq_of_nonneg _ 14 (by norm_num) (by norm_num) (by norm_num)
    rw [hparse]
    show some (RGB24.to_hex_short (RGB24.from_rgb 240 240 240)) = _
    rw [to_hex_short_eval 240 240 240 (by norm_num) (by norm_num) (by norm_num)]
    rw [hq]
    decide

/-- C9 witness: `to_hex_short` of `(240, 240, 240)` is `"eee"`. -/
theorem c9_to_hex_short_spec_witness :
    RGB24.to_hex_short (RGB24.from_rgb 240 240 240) = ['e', 'e', 'e'] := by
  have h := (c9_to_hex_short_spec 240 240 240 (by norm_num) (by norm_num) (by norm_num)).1
  rw [h]
  have hq : qround ((240 : Nat) * 15 / 255 : ℚ) = 14 := by
    have harg : ((240 : Nat) * 15 / 255 : ℚ) = 3600 / 255 := by norm_num
    rw [harg]
    exact qround_eq_of_nonneg _ 14 (by norm_num) (by norm_num) (by norm_num)
  rw [hq]
  decide

/-! Stage evaluation lemmas for the six canonical hue round trips (C5). -/

lemma to_u16_repr_one : to_u16_repr (F.fin 1) = 65535 := by
  rw [to_u16_repr, if_pos (by simp)]

lemma to_u16_repr_zero : to_u16_repr (F.fin 0) = 0 := by
  rw [to_u16_repr, if_neg (by simp), if_pos (by simp)]

lemma hsv2rgb_120 : hsv_to_rgb48 ⟨F.fin 120, F.fin 1, F.fin 1⟩ = RGB48.from_rgb 0 65535 0 := by
  rw [hsv_to_rgb48]
  rw [F.div_fin 120 60 (by norm_num)]
  rw [F.frem_fin (120/60) 2 (by norm_num)]
  rw [qtrunc_eq_of_nonneg (120/60/2) 1 (by norm_num) (by norm_num) (by norm_num)]
  norm_num [calc_hsv, RGB48.from_rgb_f64, to_u16_repr_one, to_u16_repr_zero]

lemma hsv2rgb_0 : hsv_to_rgb48 ⟨F.fin 0, F.fin 1, F.fin 1⟩ = RGB48.from_rgb 65535 0 0 := by
  rw [hsv_to_rgb48]
  rw [F.div_fin 0 60 (by norm_num)]
  rw [F.frem_fin (0/60) 2 (by norm_num)]
  rw [qtrunc_eq_of_nonneg (0/60/2) 0 (by norm_num) (by norm_num) (by norm_num)]
  norm_num [calc_hsv, RGB48.from_rgb_f64, to_u16_repr_one, to_u16_repr_zero]

lemma hsv2rgb_60 : hsv_to_rgb48 ⟨F.fin 60, F.fin 1, F.fin 1⟩ = RGB48.from_rgb 65535 65535 0 := by
  rw [hsv_to_rgb48]
  rw [F.div_fin 60 60 (by norm_num)]
  rw [F.frem_fin (60/60) 2 (by norm_num)]
  rw [qtrunc_eq_of_nonneg (60/60/2) 0 (by norm_num) (by norm_num) (by norm_num)]
  norm_num [calc_hsv, RGB48.from_rgb_f64, to_u16_repr_one, to_u16_repr_zero]

lemma hsv2rgb_180 : hsv_to_rgb48 ⟨F.fin 180, F.fin 1, F.fin 1⟩ = RGB48.from_rgb 0 65535 65535 := by
  rw [hsv_to_rgb48]
  rw [F.div_fin 180 60 (by norm_num)]
  rw [F.frem_fin (180/60) 2 (by norm_num)]
  rw [qtrunc_eq_of_nonneg (180/60/2) 1 (by norm_num) (by norm_num) (by norm_num)]
  norm_num [calc_hsv, RGB48.from_rgb_f64, to_u16_repr_one, to_u16_repr_zero]

lemma hsv2rgb_240 : hsv_to_rgb48 ⟨F.fin 240, F.fin 1, F.fin 1⟩ = RGB48.from_rgb 0 0 65535 := by
  rw [hsv_to_rgb48]
  rw [F.div_fin 240 60 (by norm_num)]
  rw [F.frem_fin (240/60) 2 (by norm_num)]
  rw [qtrunc_eq_of_nonneg (240/60/2) 2 (by norm_num) (by norm_num) (by norm_num)]
  norm_num [calc_hsv, RGB48.from_rgb_f64, to_u16_repr_one, to_u16_repr_zero]

lemma hsv2rgb_300 : hsv_to_rgb48 ⟨F.fin 300, F.fin 1, F.fin 1⟩ = RGB48.from_rgb 65535 0 65535 := by
  rw [hsv_to_rgb48]
  rw [F.div_fin 300 60 (by norm_num)]
  rw [F.frem_fin (300/60) 2 (by norm_num)]
  rw [qtrunc_eq_of_nonneg (300/60/2) 2 (by norm_num) (by norm_num) (by norm_num)]
  norm_num [calc_hsv, RGB48.from_rgb_f64, to_u16_repr_one, to_u16_repr_zero]

lemma rgb2hsv_green : rgb_to_hsv48 (RGB48.from_rgb 0 65535 0) = some ⟨F.fin 120, F.fin 1, F.fin 1⟩ := by
  rw [rgb_to_hsv48, RGB48.as_tuple_f64, RGB48.from_rgb]
  norm_num [F.div_fin, get_max, get_min, F.fmax, F.fmin]
  rw [from_hsv_eval 120 1 1 0 (by norm_num) (by norm_num) (by norm_num)
    (by norm_num) (by norm_num) (by norm_num)]
  norm_num

lemma rgb2hsv_red : rgb_to_hsv48 (RGB48.from_rgb 65535 0 0) = some ⟨F.fin 0, F.fin 1, F.fin 1⟩ := by
  rw [rgb_to_hsv48, RGB48.as_tuple_f64, RGB48.from_rgb]
  norm_num [F.div_fin, get_max, get_min, F.fmax, F.fmin]
  rw [F.frem_fin 0 6 (by norm_num)]
  rw [qtrunc_eq_of_nonneg (0/6) 0 (by norm_num) (by norm_num) (by norm_num)]
  norm_num
  rw [from_hsv_eval 0 1 1 0 (by norm_num) (by norm_num) (by norm_num)
    (by norm_num) (by norm_num) (by norm_num)]
  norm_num

lemma rgb2hsv_yellow : rgb_to_hsv48 (RGB48.from_rgb 65535 65535 0) = some ⟨F.fin 60, F.fin 1, F.fin 1⟩ := by
  rw [rgb_to_hsv48, RGB48.as_tuple_f64, RGB48.from_rgb]
  norm_num [F.div_fin, get_max, get_min, F.fmax, F.fmin]
  rw [F.frem_fin 1 6 (by norm_num)]
  rw [qtrunc_eq_of_nonneg (1/6) 0 (by norm_num) (by norm_num) (by norm_num)]
  norm_num
  rw [from_hsv_eval 60 1 1 0 (by norm_num) (by norm_num) (by norm_num)
    (by norm_num) (by norm_num) (by norm_num)]
  norm_num

lemma rgb2hsv_cyan : rgb_to_hsv48 (RGB48.from_rgb 0 65535 65535) = some ⟨F.fin 180, F.fin 1, F.fin 1⟩ := by
  rw [rgb_to_hsv48, RGB48.as_tuple_f64, RGB48.from_rgb]
  norm_num [F.div_fin, get_max, get_min, F.fmax, F.fmin]
  rw [from_hsv_eval 180 1 1 0 (by norm_num) (by norm_num) (by norm_num)
    (by norm_num) (by norm_num) (by norm_num)]
  norm_num

lemma rgb2hsv_blue : rgb_to_hsv48 (RGB48.from_rgb 0 0 65535) = some ⟨F.fin 240, F.fin 1, F.fin 1⟩ := by
  rw [rgb_to_hsv48, RGB48.as_tuple_f64, RGB48.from_rgb]
  norm_num [F.div_fin, get_max, get_min, F.fmax, F.fmin]
  rw [from_hsv_eval 240 1 1 0 (by norm_num) (by norm_num) (by norm_num)
    (by norm_num) (by norm_num) (by norm_num)]
  norm_num

lemma rgb2hsv_magenta : rgb_to_hsv48 (RGB48.from_rgb 65535 0 65535) = some ⟨F.fin 300, F.fin 1, F.fin 1⟩ := by
  rw [rgb_to_hsv48, RGB48.as_tuple_f64, RGB48.from_rgb]
  norm_num [F.div_fin, get_max, get_min, F.fmax, F.fmin]
  rw [F.frem_fin (-1) 6 (by norm_num)]
  rw [qtrunc_eq_of_neg (-1/6) 0 (by norm_num) (by norm_num) (by norm_num)]
  norm_num
  rw [from_hsv_eval (-60) 1 1 (-1) (by norm_num) (by norm_num) (by norm_num)
    (by norm_num) (by norm_num) (by norm_num)]
  norm_num

/-- Round trip of a fully saturated, full-value hue through the converter:
`HSV::from_hsv(h, 1, 1)` (failure propagated), then `hsv_to_rgb` into `RGB48`,
then `rgb_to_hsv` back. -/
def canonical_roundtrip (h : ℚ) : Option HSV :=
  match HSV.from_hsv (F.fin h) (F.fin 1) (F.fin 1) with
  | some c => rgb_to_hsv48 (hsv_to_rgb48 c)
  | none => none

/-- C5: for each of the six canonical hues, converting `(h, 1, 1)` to RGB and
back returns exactly `(h, 1, 1)` — channel-for-channel equality, no epsilon. -/
theorem c5_canonical_hue_roundtrips :
    canonical_roundtrip 0 = some ⟨F.fin 0, F.fin 1, F.fin 1⟩
    ∧ canonical_roundtrip 60 = some ⟨F.fin 60, F.fin 1, F.fin 1⟩
    ∧ canonical_roundtrip 120 = some ⟨F.fin 120, F.fin 1, F.fin 1⟩
    ∧ canonical_roundtrip 180 = some ⟨F.fin 180, F.fin 1, F.fin 1⟩
    ∧ canonical_roundtrip 240 = some ⟨F.fin 240, F.fin 1, F.fin 1⟩
    ∧ canonical_roundtrip 300 = some ⟨F.fin 300, F.fin 1, F.fin 1⟩ := by
  refine ⟨?_, ?_, ?_, ?_, ?_, ?_⟩
  · rw [canonical_roundtrip]
    rw [from_hsv_eval 0 1 1 0 (by norm_num) (by norm_num) (by norm_num)
      (by norm_num) (by norm_num) (by norm_num)]
    norm_num
    rw [hsv2rgb_0, rgb2hsv_red]
  · rw [canonical_roundtrip]
    rw [from_hsv_eval 60 1 1 0 (by norm_num) (by norm_num) (by norm_num)
      (by norm_num) (by norm_num) (by norm_num)]
    norm_num
    rw [hsv2rgb_60, rgb2hsv_yellow]
  · rw [canonical_roundtrip]
    rw [from_hsv_eval 120 1 1 0 (by norm_num) (by norm_num) (by norm_num)
      (by norm_num) (by norm_num) (by norm_num)]
    norm_num
    rw [hsv2rgb_120, rgb2hsv_green]
  · rw [canonical_roundtrip]
    rw [from_hsv_eval 180 1 1 0 (by norm_num) (by norm_num) (by norm_num)
      (by norm_num) (by norm_num) (by norm_num)]
    norm_num
    rw [hsv2rgb_180, rgb2hsv_cyan]
  · rw [canonical_roundtrip]
    rw [from_hsv_eval 240 1 1 0 (by norm_num) (by norm_num) (by norm_num)
      (by norm_num) (by norm_num) (by norm_num)]
    norm_num
    rw [hsv2rgb_240, rgb2hsv_blue]
  · rw [canonical_roundtrip]
    rw [from_hsv_eval 300 1 1 0 (by norm_num) (by norm_num) (by norm_num)
      (by norm_num) (by norm_num) (by norm_num)]
    norm_num
    rw [hsv2rgb_300, rgb2hsv_magenta]

end Colorful